import Mathlib

/-!
Verification development for the RenderBot retrieval-and-dialogue core.

The Python sources `document_rag.py` and `conversational_intelligence.py`
are shallowly embedded below.  Text is modelled as `List Char` (ASCII
semantics for case conversion and whitespace, which is all the data the
program manipulates).  Python `float` arithmetic appears in two places
(`confidence`, Jaccard similarity); both are embedded exactly over
`Nat`-tenths resp. `ℚ`, which agrees with the IEEE-double computation on
every value the program can produce (the comments at those definitions
justify this).  Network, file-system and timestamp fields of the source
are outside the pure core and are omitted from the corresponding records.
-/

set_option maxRecDepth 100000

/-- Text is a list of characters (Python `str`, ASCII fragment). -/
abbrev Str := List Char

/-- Python `\s` on ASCII: space, tab, newline, carriage return, form feed, vertical tab. -/
def isPySpace (c : Char) : Bool :=
  c = ' ' || c = '\t' || c = '\n' || c = '\r' || c = '\x0c' || c = '\x0b'

/-- ASCII upper-case letter. -/
def isUpperAZ (c : Char) : Bool := 'A' ≤ c && c ≤ 'Z'

/-- ASCII lower-case letter. -/
def isLowerAZ (c : Char) : Bool := 'a' ≤ c && c ≤ 'z'

/-- Python regex `\w` on ASCII: letters, digits, underscore. -/
def isWordChar (c : Char) : Bool := isUpperAZ c || isLowerAZ c || c.isDigit || c = '_'

/-- Python `str.lower()` (ASCII). -/
def lowerStr (l : Str) : Str := l.map Char.toLower

/-- Python `str.strip()`: drop whitespace from both ends. -/
def stripWS (l : Str) : Str :=
  ((l.dropWhile isPySpace).reverse.dropWhile isPySpace).reverse

/-- Worker for `collapseWS`: `prevSpace` records whether the previous character
belonged to a whitespace run already emitted as a single space. -/
def collapseWSAux (l : Str) (prevSpace : Bool) : Str :=
  match l with
  | [] => []
  | c :: rest =>
    if isPySpace c then
      if prevSpace then collapseWSAux rest true else ' ' :: collapseWSAux rest true
    else c :: collapseWSAux rest false

/-- Python whitespace collapsing, the regex `\s+` of `re.sub` replaced by a
single space: collapse each whitespace run to one space character. -/
def collapseWS (l : Str) : Str := collapseWSAux l false

/-- Worker for `pySplit`: `cur` holds the current word reversed. -/
def pySplitAux (l : Str) (cur : Str) : List Str :=
  match l with
  | [] => if cur.isEmpty then [] else [cur.reverse]
  | c :: rest =>
    if isPySpace c then
      if cur.isEmpty then pySplitAux rest [] else cur.reverse :: pySplitAux rest []
    else pySplitAux rest (c :: cur)

/-- Python `str.split()` with no separator: split on whitespace runs, no empty pieces. -/
def pySplit (l : Str) : List Str := pySplitAux l []

/-- Python join of string pieces with a single space. -/
def joinSp (ls : List Str) : Str :=
  match ls with
  | [] => []
  | [s] => s
  | s :: rest => s ++ ' ' :: joinSp rest

/-- Python join of string pieces with a newline. -/
def joinNl (ls : List Str) : Str :=
  match ls with
  | [] => []
  | [s] => s
  | s :: rest => s ++ '\n' :: joinNl rest

/-- Python `str.split(sep)` for a single-character separator: empty pieces are kept. -/
def splitOnChar (sep : Char) (l : Str) : List Str :=
  match l with
  | [] => [[]]
  | c :: rest =>
    if c = sep then [] :: splitOnChar sep rest
    else
      match splitOnChar sep rest with
      | [] => [[c]]
      | p :: ps => (c :: p) :: ps

/-- Python substring test `sub in hay`. -/
def containsSub (hay sub : Str) : Bool :=
  if sub.isPrefixOf hay then true
  else
    match hay with
    | [] => false
    | _ :: rest => containsSub rest sub

/-- Python `str.isupper()` (ASCII): at least one cased character and no lower-case one. -/
def pyIsUpper (l : Str) : Bool :=
  (l.any fun c => isUpperAZ c || isLowerAZ c) && (l.all fun c => !isLowerAZ c)

/-- Sentence terminator characters of the sentence-splitting regex. -/
def isSentEnd (c : Char) : Bool := c = '.' || c = '!' || c = '?'

/-- Worker for `splitSentences`: `acc` holds the current piece reversed; `skip`
records that we are inside the whitespace run of a delimiter just matched. -/
def splitSentencesAux (l : Str) (acc : Str) (skip : Bool) : List Str :=
  match l with
  | [] => [acc.reverse]
  | c :: rest =>
    if skip && isPySpace c then splitSentencesAux rest acc true
    else if isSentEnd c && (match rest with | [] => false | r :: _ => isPySpace r) then
      (c :: acc).reverse :: splitSentencesAux rest [] true
    else splitSentencesAux rest (c :: acc) false

/-- Python sentence splitting, the regex `(?<=[.!?])\s+` of `re.split`: cut
after `.`/`!`/`?` followed by whitespace, consuming the whitespace run. -/
def splitSentences (l : Str) : List Str := splitSentencesAux l [] false

/-- Worker for `wordRuns`: `cur` holds the current run reversed. -/
def wordRunsAux (l : Str) (cur : Str) : List Str :=
  match l with
  | [] => if cur.isEmpty then [] else [cur.reverse]
  | c :: rest =>
    if isWordChar c then wordRunsAux rest (c :: cur)
    else if cur.isEmpty then wordRunsAux rest [] else cur.reverse :: wordRunsAux rest []

/-- Maximal runs of `\w` characters of a string, in order. -/
def wordRuns (l : Str) : List Str := wordRunsAux l []

/-- Python token extraction, the regex `\b[a-z]{3,}\b` of `re.findall`, on
lower-cased text: the maximal `\w`-runs made of `a-z` only, length at least 3. -/
def alphaTokens3 (l : Str) : List Str :=
  (wordRuns l).filter fun w => decide (3 ≤ w.length) && w.all isLowerAZ

/-- Word count of a sentence, as the chunker computes it: `len(sentence.split())`. -/
def wordCount (s : Str) : Nat := (pySplit s).length

/-- The stop-word set shared by `_extract_keywords`, `_summarize_chunk` and
`_smart_truncate` in `document_rag.py`. -/
def stopWordsBase : List Str :=
  (["the", "a", "an", "and", "or", "but", "in", "on", "at", "to", "for",
    "of", "with", "by", "from", "is", "are", "was", "were", "be", "been",
    "have", "has", "had", "do", "does", "did", "will", "would", "could",
    "should", "may", "might", "can", "this", "that", "these", "those",
    "what", "where", "when", "why", "how", "who", "which", "tell", "me",
    "about", "know", "please"] : List String).map String.toList

/-- The extended stop-word set of `search_documents` (greeting/bot-name/domain
tokens added; the duplicated entries of the Python set literal collapse). -/
def stopWordsSearch : List Str :=
  stopWordsBase ++
    (["thank", "thanks", "hello", "hi", "hey", "eva", "bot", "namibia",
      "namibian"] : List String).map String.toList

/-- Worker for `_extract_keywords`: first-seen-order unique keywords, at most 15,
accumulated reversed (the loop keeps scanning after 15, adding nothing). -/
def uniqueKeywordsAux (ws : List Str) (acc : List Str) : List Str :=
  match ws with
  | [] => acc.reverse
  | w :: rest =>
    if !(acc.contains w) && acc.length < 15 then uniqueKeywordsAux rest (w :: acc)
    else uniqueKeywordsAux rest acc

/-- Embeds `DocumentRAG._extract_keywords`. -/
def extractKeywords (text : Str) : List Str :=
  let textLower := lowerStr text
  let words := alphaTokens3 textLower
  let keywords := words.filter fun w => !(stopWordsBase.contains w)
  uniqueKeywordsAux keywords []

/-- A retrieval chunk (`document_rag.py` chunk dictionaries). -/
structure Chunk where
  text : Str
  filename : Str
  word_count : Nat
  keywords : List Str
  is_summary : Bool
deriving DecidableEq, Repr

/-- Build a topical chunk from the accumulated sentence buffer, as the flush
sites of `_create_chunks` do. -/
def mkChunk (fn : Str) (buf : List Str) (cnt : Nat) : Chunk :=
  { text := joinSp buf
    filename := fn
    word_count := cnt
    keywords := extractKeywords (joinSp buf)
    is_summary := false }

/-- Worker for the regex `^[A-Z][a-z]*(?:\s+[A-Z][a-z]*)*:$` after the first
capital letter: `inSpace = false` means we are scanning the `[a-z]*` tail of a
word (so a final colon or a whitespace run may follow), `inSpace = true` means
we are inside a `\s+` run (so more whitespace or a capital letter may follow).
All alternations of the pattern are character-disjoint, so matching is
deterministic left-to-right.  (The `$`-before-trailing-newline case of Python
cannot arise: the chunker only applies this to sentences of
whitespace-collapsed text.) -/
def capAux (s : Str) (inSpace : Bool) : Bool :=
  match s, inSpace with
  | [], _ => false
  | c :: rest, false =>
    if isLowerAZ c then capAux rest false
    else if c = ':' then rest.isEmpty
    else if isPySpace c then capAux rest true
    else false
  | c :: rest, true =>
    if isPySpace c then capAux rest true
    else if isUpperAZ c then capAux rest false
    else false

/-- The anchored regex `^[A-Z][a-z]*(?:\s+[A-Z][a-z]*)*:$` of `re.match`. -/
def isCapColonHeading (s : Str) : Bool :=
  match s with
  | c :: rest => if isUpperAZ c then capAux rest false else false
  | [] => false

/-- The anchored regex `^[0-9]+\.\s` of `re.match`: digits, a dot, a whitespace. -/
def isNumHeading (s : Str) : Bool :=
  let ds := s.takeWhile Char.isDigit
  let rest := s.dropWhile Char.isDigit
  decide (ds ≠ []) &&
    (match rest with
     | '.' :: r :: _ => isPySpace r
     | _ => false)

/-- Heading detection of `_create_chunks`: all upper-case, shorter than 50
characters, `Capitalized Words:` pattern, or leading `N. ` pattern. -/
def isHeading (s : Str) : Bool :=
  pyIsUpper s || decide (s.length < 50) || isCapColonHeading s || isNumHeading s

/-- Python truthiness of the optional `query` argument (`if not query`): absent
or empty string. -/
def queryTruthy (q : Option Str) : Bool :=
  match q with
  | none => false
  | some s => !s.isEmpty

/-- Insert `x` behind every element whose key is not smaller — the insertion
step of a stable descending sort (`list.sort(key=..., reverse=True)`). -/
def insertDescBy {α : Type} (k : α → Int) (x : α) (l : List α) : List α :=
  match l with
  | [] => [x]
  | y :: ys => if k y < k x then x :: y :: ys else y :: insertDescBy k x ys

/-- Stable descending sort by an integer key, the semantics of Python
`list.sort(key=..., reverse=True)`: keys non-increasing, equal keys keep
their original order. -/
def sortDescBy {α : Type} (k : α → Int) (l : List α) : List α :=
  l.foldl (fun acc x => insertDescBy k x acc) []

/-- Query words of the summarizer/truncator: `query.lower().split()` minus the
base stop words. -/
def summaryQueryWords (q : Str) : List Str :=
  (pySplit (lowerStr q)).filter fun w => !(stopWordsBase.contains w)

/-- Sentence relevance of `_summarize_chunk`/`_smart_truncate`: how many of the
query words (with multiplicity) occur as substrings of the lower-cased
sentence. -/
def sentenceScore (qws : List Str) (s : Str) : Nat :=
  (qws.filter fun w => containsSub (lowerStr s) w).length

/-- The scored relevant sentences of `_summarize_chunk`, in document order. -/
def relevantSentences (chunkText q : Str) : List (Nat × Str) :=
  (splitSentences chunkText).filterMap fun s =>
    let score := sentenceScore (summaryQueryWords q) s
    if 0 < score then some (score, s) else none

/-- The greedy packing loop of the query branch of `_smart_truncate`: walk the
score-sorted sentences, adding each positive-scoring sentence whose length
still fits below `max_length - 100`; non-fitting sentences are skipped but the
loop continues.  Returns the kept sentences and their summed length (the
source never counts the joining spaces). -/
def packRelevant (maxL : Nat) (scored : List (Nat × Str)) : List Str × Nat :=
  scored.foldl
    (fun acc p =>
      if 0 < p.1 && acc.2 + p.2.length + 100 < maxL then (acc.1 ++ [p.2], acc.2 + p.2.length)
      else acc)
    ([], 0)

/-- The fallback packing loop of `_smart_truncate`: take sentences in document
order while the summed length stays below `max_length - 50`, stopping at the
first sentence that does not fit (the source `break`s there). -/
def packPrefixAux (maxL : Nat) (sents : List Str) (total : Nat) : List Str :=
  match sents with
  | [] => []
  | s :: rest =>
    if total + s.length + 50 < maxL then s :: packPrefixAux maxL rest (total + s.length)
    else []

/-- Embeds `DocumentRAG._smart_truncate`.  The query branch, when it keeps at least one
sentence, returns early; this is modelled by the intermediate `Option`. -/
def smartTruncate (text : Str) (maxL : Nat) (query : Option Str) : Str :=
  if text.length ≤ maxL then text
  else
    let sentences := splitSentences text
    let viaQuery : Option Str :=
      if queryTruthy query then
        let q := query.getD []
        let scored := sentences.map fun s => (sentenceScore (summaryQueryWords q) s, s)
        let sorted := sortDescBy (fun p => (p.1 : Int)) scored
        let packed := (packRelevant maxL sorted).1
        if packed.isEmpty then none
        else
          let truncated := joinSp packed
          some (if maxL < truncated.length then truncated.take (maxL - 3) ++ ("...".toList)
                else truncated)
      else none
    match viaQuery with
    | some r => r
    | none =>
      let result := packPrefixAux maxL sentences 0
      if result.isEmpty then text.take (maxL - 3) ++ ("...".toList)
      else
        let truncated := joinSp result
        if truncated.length < text.length then truncated ++ ("...".toList) else truncated

/-- Embeds `DocumentRAG._summarize_chunk` (character budget 400). -/
def summarizeChunk (chunkText : Str) (query : Option Str) : Str :=
  if !queryTruthy query || chunkText.length < 200 then
    if 400 < chunkText.length then smartTruncate chunkText 400 query else chunkText
  else
    let q := query.getD []
    let relevant := relevantSentences chunkText q
    if !relevant.isEmpty then
      let sorted := sortDescBy (fun p => (p.1 : Int)) relevant
      let summary := joinSp ((sorted.take 3).map Prod.snd)
      if 400 < summary.length then smartTruncate summary 400 query else summary
    else
      let summary := joinSp ((splitSentences chunkText).take 3)
      if 400 < summary.length then smartTruncate summary 400 query else summary

/-- One step of the sentence loop of `_create_chunks`: skip short sentences,
flush a big-enough buffer at a heading boundary (resetting it either way),
append the sentence, and flush when the accumulated word count reaches the
chunk size. -/
def chunkStep (fn : Str) (size : Nat) (st : List Chunk × List Str × Nat) (sraw : Str) :
    List Chunk × List Str × Nat :=
  let s := stripWS sraw
  if s.isEmpty || (pySplit s).length < 3 then st
  else
    let w := (pySplit s).length
    if isHeading s && !st.2.1.isEmpty then
      let cs2 := if 50 ≤ st.2.2 then st.1 ++ [mkChunk fn st.2.1 st.2.2] else st.1
      if size ≤ w then (cs2 ++ [mkChunk fn [s] w], [], 0) else (cs2, [s], w)
    else
      if size ≤ st.2.2 + w then (st.1 ++ [mkChunk fn (st.2.1 ++ [s]) (st.2.2 + w)], [], 0)
      else (st.1, st.2.1 ++ [s], st.2.2 + w)

/-- The synthesized summary chunk of `_create_chunks`: the text of the first
three chunks, cut to 497 characters plus an ellipsis when over 500. -/
def summaryChunk (fn : Str) (cs : List Chunk) : Chunk :=
  let st := joinSp ((cs.take 3).map Chunk.text)
  let st2 := if 500 < st.length then st.take 497 ++ ("...".toList) else st
  { text := st2
    filename := fn
    word_count := (pySplit st2).length
    keywords := extractKeywords st2
    is_summary := true }

/-- The topical chunks of `_create_chunks`: the sentence loop followed by the
flush of a big-enough (at least 30 words) trailing buffer. -/
def topicalChunks (text fn : Str) (size : Nat) : List Chunk :=
  let t := stripWS (collapseWS text)
  let sents := splitSentences t
  let folded := sents.foldl (chunkStep fn size) ([], [], 0)
  if !folded.2.1.isEmpty && 30 ≤ folded.2.2 then folded.1 ++ [mkChunk fn folded.2.1 folded.2.2]
  else folded.1

/-- Embeds `DocumentRAG._create_chunks` (the Python default for `chunk_size` is 300;
callers pass it explicitly here): the topical chunks, preceded by the
synthesized summary chunk whenever there is any chunk at all. -/
def createChunks (text fn : Str) (size : Nat) : List Chunk :=
  let cs := topicalChunks text fn size
  if cs.isEmpty then [] else summaryChunk fn cs :: cs

/-- The wh-question words of scoring signal 7 in `search_documents`. -/
def questionWords7 : List Str :=
  (["who", "what", "where", "when", "why", "how", "which"] : List String).map String.toList

/-- The normalized query tokens of `search_documents`: lower-case, stripped,
alphabetic tokens of length at least 3, extended stop words removed. -/
def searchQueryWords (query : Str) : List Str :=
  (alphaTokens3 (stripWS (lowerStr query))).filter fun w => !(stopWordsSearch.contains w)

/-- The proximity bonus of `search_documents`: +300 if some window of
`len(query_words)` consecutive chunk words contains every query word. -/
def proximityBonus (chunkWords qws : List Str) : Int :=
  if (List.range (chunkWords.length + 1 - qws.length)).any
      (fun i => qws.all fun w => ((chunkWords.drop i).take qws.length).contains w)
  then 300 else 0

/-- The additive per-chunk relevance score of `search_documents`.  The
percentage bonus `int(percentage_match * 200)` is float arithmetic in the
source; for the small integer ratios `m/k` involved the float truncation
equals integer division `m * 200 / k`, which is used here. -/
def chunkScore (c : Chunk) (query : Str) : Int :=
  let queryLower := stripWS (lowerStr query)
  let qws := searchQueryWords query
  let ctl := lowerStr c.text
  let phraseBonus : Int := if containsSub ctl queryLower then 1000 else 0
  let allWordsBonus : Int :=
    if (qws.all fun w => containsSub ctl w) && !qws.isEmpty then 500 else 0
  let m := (qws.filter fun w => containsSub ctl w).length
  let matchBonus : Int := if 0 < m then 100 * (m : Int) + ((m * 200) / qws.length : Nat) else 0
  let proxBonus := proximityBonus (pySplit ctl) qws
  let summaryBonus : Int := if c.is_summary then 150 else 0
  let wc := (pySplit ctl).length
  let lengthBonus : Int := if wc < 100 then 50 else if 300 < wc then -30 else 0
  let questionBonus : Int :=
    50 * ((questionWords7.filter fun w => containsSub queryLower w && containsSub ctl w).length : Int)
  let headingPenalty : Int :=
    if ("welcome to".toList).isPrefixOf ctl || pyIsUpper ctl then -100 else 0
  phraseBonus + allWordsBonus + matchBonus + proxBonus + summaryBonus + lengthBonus +
    questionBonus + headingPenalty

/-- A search result record of `search_documents` (the constant Python keys
`source` and `type` are carried as fields). -/
structure SearchResult where
  text : Str
  filename : Str
  score : Int
  source : Str
  rtype : Str
  is_summary : Bool
  original_length : Nat
  summarized_length : Nat
deriving DecidableEq, Repr

/-- Strip a leading `WELCOME TO ...`/`INTRODUCTION ...` line:
the case-insensitive anchored regex `^PAT.*?\n` of `re.sub` removes from the start
through the first newline, only when the text starts with the pattern and a
newline exists. -/
def removeHeadLine (pat : Str) (t : Str) : Str :=
  if pat.isPrefixOf (lowerStr t) then
    let rest := t.dropWhile fun c => c ≠ '\n'
    match rest with
    | [] => t
    | _ :: tail => tail
  else t

/-- The post-processing `search_documents` applies to a summarized chunk text:
drop blank, `WELCOME`-prefixed and all-upper-case lines, re-truncate to 500,
strip leading `WELCOME TO`/`INTRODUCTION` lines, strip whitespace. -/
def cleanSummarized (query : Str) (summarized : Str) : Str :=
  let lines := splitOnChar '\n' summarized
  let cleanLines := lines.filterMap fun ln =>
    let ln := stripWS ln
    if !ln.isEmpty && !(("WELCOME".toList).isPrefixOf ln) && !pyIsUpper ln then some ln
    else none
  let st := joinNl cleanLines
  let st := if 500 < st.length then smartTruncate st 500 (some query) else st
  let st := removeHeadLine ("welcome to".toList) st
  let st := removeHeadLine ("introduction".toList) st
  stripWS st

/-- Embeds `DocumentRAG.search_documents` over the chunk index (the Python default for
`limit` is 2; callers pass it explicitly here). -/
def searchDocuments (chunks : List Chunk) (query : Str) (limit : Nat) : List SearchResult :=
  if chunks.isEmpty then []
  else if (searchQueryWords query).isEmpty then []
  else
    let scored := chunks.filterMap fun c =>
      let s := chunkScore c query
      if 0 < s then some (c, s) else none
    let sorted := sortDescBy (fun p => p.2) scored
    (sorted.take limit).map fun p =>
      let summarized := cleanSummarized query (summarizeChunk p.1.text (some query))
      { text := summarized
        filename := p.1.filename
        score := p.2
        source := "document".toList
        rtype := "document_chunk".toList
        is_summary := p.1.is_summary
        original_length := p.1.text.length
        summarized_length := summarized.length }

/-- An ingested document (`document_rag.py` document dictionaries; the hash,
URL and timestamp fields come from the network layer and are not part of the
pure core). -/
structure Document where
  filename : Str
  content : Str
  word_count : Nat
  char_count : Nat
deriving DecidableEq, Repr

/-- The document store and chunk index of `DocumentRAG`. -/
structure RagState where
  documents : List Document
  document_chunks : List Chunk
deriving DecidableEq, Repr

/-- The pure state update of a successful `_download_and_process`: replace any
document of the same filename, rebuild the chunk set of that document. -/
def ingestDocument (st : RagState) (fn text : Str) : RagState :=
  let document : Document :=
    { filename := fn
      content := text
      word_count := (pySplit text).length
      char_count := text.length }
  let documents := (st.documents.filter fun d => !(d.filename == fn)) ++ [document]
  let chunks := createChunks text fn 300
  let document_chunks := (st.document_chunks.filter fun c => !(c.filename == fn)) ++ chunks
  { documents := documents, document_chunks := document_chunks }

/-- Tone labels of `_detect_tone`. -/
inductive Tone where
  | very_enthusiastic | enthusiastic | casual | frustrated | uncertain | formal | neutral
deriving DecidableEq, Repr

/-- Emotion labels of `_detect_emotion`. -/
inductive Emotion where
  | excited | frustrated | confused | curious | satisfied | neutral
deriving DecidableEq, Repr

/-- Intent labels of `_detect_intent`. -/
inductive Intent where
  | information_seeking | comparison | recommendation | problem_solving | social
  | feedback | general_query
deriving DecidableEq, Repr

/-- Engagement labels of `_assess_engagement`. -/
inductive Engagement where
  | low | medium | high
deriving DecidableEq, Repr

/-- Embeds `ConversationalIntelligence._detect_tone` (first matching rule wins). -/
def detectTone (ml orig : Str) : Tone :=
  if (["!", "wow", "amazing", "awesome", "love"] : List String).any
      (fun x => containsSub ml x.toList) then
    if 2 ≤ orig.count '!' || pyIsUpper orig then Tone.very_enthusiastic else Tone.enthusiastic
  else if (["lol", "haha", "hey", "sup", "cool", "nice"] : List String).any
      (fun x => containsSub ml x.toList) then Tone.casual
  else if (["why not", "still", "again", "ugh", "seriously"] : List String).any
      (fun x => containsSub ml x.toList) then Tone.frustrated
  else if (["maybe", "hmm", "idk", "not sure", "..."] : List String).any
      (fun x => containsSub ml x.toList) then Tone.uncertain
  else if (["please", "could you", "would you", "kindly"] : List String).any
      (fun x => containsSub ml x.toList) then Tone.formal
  else Tone.neutral

/-- Embeds `ConversationalIntelligence._detect_emotion` (first matching rule wins). -/
def detectEmotion (ml : Str) : Emotion :=
  if (["excited", "can\x27t wait", "amazing", "wonderful"] : List String).any
      (fun x => containsSub ml x.toList) then Emotion.excited
  else if (["frustrated", "annoying", "disappointed", "tired of"] : List String).any
      (fun x => containsSub ml x.toList) then Emotion.frustrated
  else if (["confused", "don\x27t understand", "what do you mean", "huh"] : List String).any
      (fun x => containsSub ml x.toList) then Emotion.confused
  else if containsSub ml ("?".toList) &&
      (["how", "why", "what", "when"] : List String).any (fun x => containsSub ml x.toList) then
    Emotion.curious
  else if (["thanks", "thank you", "perfect", "great", "helped"] : List String).any
      (fun x => containsSub ml x.toList) then Emotion.satisfied
  else Emotion.neutral

/-- Embeds `ConversationalIntelligence._detect_intent` (first matching rule wins). -/
def detectIntent (ml : Str) : Intent :=
  if containsSub ml ("?".toList) ||
      (["what", "where", "when", "how", "why", "who"] : List String).any
        (fun x => (x.toList).isPrefixOf ml) then Intent.information_seeking
  else if (["vs", "versus", "compared to", "better than", "difference between"] : List String).any
      (fun x => containsSub ml x.toList) then Intent.comparison
  else if (["recommend", "suggest", "best", "should i", "which one"] : List String).any
      (fun x => containsSub ml x.toList) then Intent.recommendation
  else if (["problem", "issue", "doesn\x27t work", "not working", "help"] : List String).any
      (fun x => containsSub ml x.toList) then Intent.problem_solving
  else if (["hi", "hello", "hey", "what\x27s up", "how are you"] : List String).any
      (fun x => containsSub ml x.toList) then Intent.social
  else if (["lol", "hmm", "ok", "i see", "alright", "got it"] : List String).any
      (fun x => containsSub ml x.toList) then Intent.feedback
  else Intent.general_query

/-- Embeds `ConversationalIntelligence._calculate_confidence`, in exact tenths.  The
source adds literals 0.8, ±0.1, −0.3, −0.2 as IEEE doubles and clamps to
[0, 1]; on every reachable combination the double sum compares to the later
0.7 threshold exactly as the corresponding rational in tenths does, so the
integer model below is observationally exact. -/
def calcConfidence (message : Str) (intent : Intent) : Int :=
  let ml := lowerStr message
  let c : Int := 8
  let c := if containsSub message ("?".toList) && intent == Intent.information_seeking then
    c + 1 else c
  let c := if (["stuff", "things", "something", "anything", "whatever"] : List String).any
      (fun x => containsSub ml x.toList) then c - 3 else c
  let c := if (pySplit message).length ≤ 2 then c - 2 else c
  let c := if (["namibia", "etosha", "windhoek", "sossusvlei", "swakopmund", "himba"] :
      List String).any (fun x => containsSub ml x.toList) then c + 1 else c
  max 0 (min 10 c)

/-- Embeds `ConversationalIntelligence._is_vague_question`. -/
def isVagueQuestion (ml : Str) : Bool :=
  if (pySplit ml).length ≤ 2 && containsSub ml ("?".toList) then true
  else
    (["tell me about namibia", "what about namibia", "anything about", "everything about",
      "info about", "stuff about", "things about"] : List String).any
      (fun p => containsSub ml p.toList)

/-- Embeds `ConversationalIntelligence._needs_clarification`. -/
def needsClarification (ml : Str) : Bool :=
  if (["stuff", "things", "something", "it", "there", "that"] : List String).any
      (fun t => (pySplit ml).contains t.toList) then true
  else 1 < ml.count '?'

/-- Insert into a duplicate-free list representing a Python `set`. -/
def setInsert (x : Str) (l : List Str) : List Str :=
  if l.contains x then l else x :: l

/-- The set of tokens of `str.split()`, as a duplicate-free list (the model of
Python `set(s.split())`; only its cardinality and memberships are consumed). -/
def tokenSet (s : Str) : List Str :=
  (pySplit s).foldl (fun acc x => setInsert x acc) []

/-- Embeds `ConversationalIntelligence._calculate_similarity`: token-set Jaccard
similarity `len(w1 & w2) / len(w1 | w2)` (0.0 when either set is empty),
represented exactly as the numerator/denominator pair of the ratio the source
computes in floating point. -/
def calcSimilarity (s1 s2 : Str) : Nat × Nat :=
  let words1 := tokenSet s1
  let words2 := tokenSet s2
  if words1.isEmpty || words2.isEmpty then (0, 1)
  else ((words1.filter fun w => words2.contains w).length,
        (words1 ++ words2.filter fun w => !(words1.contains w)).length)

/-- The comparison `similarity > 0.6` performed by `_is_repeat_question`.  The
source compares the IEEE-double quotient against the double literal 0.6; for
the small integer ratios `i/u` a Jaccard similarity can take, that comparison
agrees exactly with the rational comparison `i/u > 3/5`, i.e. `3u < 5i`. -/
def similarityGtPoint6 (r : Nat × Nat) : Bool :=
  3 * r.2 < 5 * r.1

/-- Embeds `ConversationalIntelligence._assess_engagement` on the trimmed lower-cased
message.  Note the disengagement test is a substring test (`x in msg_lower`),
not membership in a set of messages. -/
def assessEngagement (ml : Str) : Engagement :=
  if (["ok", "hmm", "k", "alright", "whatever"] : List String).any
      (fun x => containsSub ml x.toList) then Engagement.low
  else if 10 < (pySplit ml).length || containsSub ml ("!".toList) then Engagement.high
  else Engagement.medium

/-- The per-user conversation history dictionary (`self.conversation_history`),
insertion-ordered as Python dicts are. -/
abbrev HistState := List (Nat × List Str)

/-- Dictionary lookup. -/
def histLookup (st : HistState) (uid : Nat) : Option (List Str) :=
  (st.find? fun p => p.1 == uid).map Prod.snd

/-- The stored history of a user (empty when the user is unknown). -/
def histOf (st : HistState) (uid : Nat) : List Str :=
  (histLookup st uid).getD []

/-- Dictionary assignment: overwrite an existing key, append a new one. -/
def histSet (st : HistState) (uid : Nat) (h : List Str) : HistState :=
  match st with
  | [] => [(uid, h)]
  | (k, v) :: rest => if k == uid then (k, h) :: rest else (k, v) :: histSet rest uid h

/-- Python `l[-n:]`: the last `n` elements. -/
def keepLast {α : Type} (n : Nat) (l : List α) : List α :=
  l.drop (l.length - n)

/-- Embeds `ConversationalIntelligence._is_repeat_question`: an unseen user gets an
empty history entry and `False`; otherwise the message is compared against the
last 3 stored messages (`similarity > 0.6`). -/
def isRepeatQuestion (st : HistState) (uid : Nat) (message : Str) : Bool × HistState :=
  match histLookup st uid with
  | none => (false, histSet st uid [])
  | some h =>
    ((keepLast 3 h).any fun prev =>
      similarityGtPoint6 (calcSimilarity (lowerStr prev) (lowerStr message)), st)

/-- The analysis dictionary returned by `analyze_user_intent` (confidence in
exact tenths, see `calcConfidence`). -/
structure Analysis where
  intent : Intent
  tone : Tone
  emotion : Emotion
  confidence : Int
  is_vague : Bool
  needs_clarification : Bool
  is_repeat : Bool
  engagement_level : Engagement
deriving DecidableEq, Repr

/-- Embeds `ConversationalIntelligence.analyze_user_intent`.  Its only state effect is
the empty-history creation inside `_is_repeat_question`. -/
def analyzeUserIntent (st : HistState) (message : Str) (uid : Nat) : Analysis × HistState :=
  let ml := stripWS (lowerStr message)
  let intent := detectIntent ml
  let rep := isRepeatQuestion st uid message
  ({ intent := intent
     tone := detectTone ml message
     emotion := detectEmotion ml
     confidence := calcConfidence message intent
     is_vague := isVagueQuestion ml
     needs_clarification := needsClarification ml
     is_repeat := rep.1
     engagement_level := assessEngagement ml }, rep.2)

/-- A knowledge-base search result as the response crafter reads it
(the `topic` and `content` keys of a result dictionary). -/
structure KBResult where
  topic : Str
  content : Str
deriving DecidableEq, Repr

/-- Embeds `ConversationalIntelligence._handle_low_engagement`. -/
def handleLowEngagement (message : Str) : Str :=
  let ml := stripWS (lowerStr message)
  if (["ok", "k", "alright"] : List String).map String.toList |>.contains ml then
    ("👍 Got it! Let me know if you need anything specific about Namibia - I\x27m here to help!").toList
  else if (["hmm", "hm", "umm"] : List String).map String.toList |>.contains ml then
    ("🤔 Not quite what you were looking for? What specific aspect of Namibia interests you?").toList
  else if containsSub ml ("whatever".toList) then
    ("No worries! I\x27m here when you need Namibia info. 🇳🇦").toList
  else ("✨ Anything else about Namibia I can help with?").toList

/-- Embeds `ConversationalIntelligence._handle_repeat_question`. -/
def handleRepeatQuestion (results : List KBResult) : Str :=
  match results with
  | [] =>
    ("I apologize - let me try to answer more clearly.\n\nCould you rephrase what you\x27re looking for? That way I can give you exactly the information you need about Namibia. 🎯").toList
  | r :: _ =>
    ("Let me be more specific:\n\n*").toList ++ r.topic ++ ("*\n").toList ++ r.content ++
      ("\n\nIs this what you were looking for? If not, what specific detail do you need? 🤔").toList

/-- Embeds `ConversationalIntelligence._handle_vague_question`. -/
def handleVagueQuestion (message : Str) : Str :=
  let ml := lowerStr message
  if containsSub ml ("tell me about namibia".toList) ||
      containsSub ml ("what about namibia".toList) then
    ("Namibia is fascinating! 🇳🇦 What interests you most?\n\n• Wildlife & safaris 🦁\n• Desert landscapes 🏜️\n• Culture & people 👥\n• Travel tips ✈️\n• Real estate 🏠").toList
  else if ml == ("namibia?".toList) || containsSub ml ("tell me".toList) then
    ("I\x27d love to help! What aspect of Namibia are you curious about? (Wildlife, places to visit, culture, properties...) 🤔").toList
  else ("Could you be more specific? That helps me give you exactly what you need! 😊").toList

/-- Embeds `ConversationalIntelligence._handle_low_confidence`. -/
def handleLowConfidence (results : List KBResult) : Str :=
  match results with
  | r :: _ =>
    ("I\x27m not 100% sure I understood your question correctly, but here\x27s what might help:\n\n*").toList ++
      r.topic ++ ("*\n").toList ++ r.content ++
      ("\n\nIs this what you were looking for? 🤔").toList
  | [] =>
    ("I\x27m not entirely sure I understood your question. 🤔\n\nCould you rephrase it? For example:\n• \"Where is Etosha?\"\n• \"What\x27s the best time to visit Namibia?\"\n• \"Show me properties in Windhoek\"").toList

/-- Embeds `ConversationalIntelligence._no_results_response`. -/
def noResultsResponse (tone : Tone) : Str :=
  if tone == Tone.very_enthusiastic then
    ("Ooh, great question! 🤔 I don\x27t have that specific info, but try /menu to explore what I do know! 🚀").toList
  else if tone == Tone.casual then
    ("Hmm, not sure about that one 🤔 Try /menu to browse topics, or ask something else!").toList
  else if tone == Tone.formal then
    ("I apologize, but I don\x27t have information on that specific topic at the moment. Please use /menu to explore available topics, or rephrase your question.").toList
  else
    ("I don\x27t have specific information on that. 🤔\n\nTry:\n• /menu - Browse all topics\n• Ask about Etosha, Sossusvlei, or Wildlife\n• /properties - See real estate listings").toList

/-- Embeds `ConversationalIntelligence._match_tone_response`. -/
def matchToneResponse (analysis : Analysis) (results : List KBResult) : Str :=
  match results with
  | [] => noResultsResponse analysis.tone
  | r :: _ =>
    if analysis.tone == Tone.very_enthusiastic then
      ("YES! 🎉 ").toList ++ r.topic ++ ("!\n\n").toList ++ r.content ++
        ("\n\nAMAZING, right?! Want to know more? 🚀").toList
    else if analysis.tone == Tone.enthusiastic then
      ("Great question! 😊\n\n*").toList ++ r.topic ++ ("*\n").toList ++ r.content ++
        ("\n\nExciting stuff! Anything else? ✨").toList
    else if analysis.tone == Tone.casual then
      ("*").toList ++ r.topic ++ ("*\n\n").toList ++ r.content ++
        ("\n\nCool, right? 😎").toList
    else if analysis.tone == Tone.formal then
      ("*").toList ++ r.topic ++ ("*\n\n").toList ++ r.content ++ ("\n\n").toList ++
        (if 1 < results.length then
          ("Would you like additional information on related topics?").toList
        else [])
    else
      ("*").toList ++ r.topic ++ ("*\n\n").toList ++ r.content ++ ("\n\n").toList ++
        (if 1 < results.length then ("💡 Want to know more about this topic?").toList else [])

/-- Embeds `ConversationalIntelligence._handle_emotional_query`. -/
def handleEmotionalQuery (analysis : Analysis) (results : List KBResult) : Str :=
  if analysis.emotion == Emotion.excited then
    match results with
    | r :: _ =>
      ("Yes! 🎉 ").toList ++ r.topic ++ (" is amazing!\n\n").toList ++ r.content ++
        ("\n\nYou\x27re going to love it! Want to know more? 🌟").toList
    | [] => ("Your enthusiasm is contagious! 🎉 What about Namibia excites you most?").toList
  else if analysis.emotion == Emotion.frustrated then
    ("I understand your frustration. 😔 Let me help you find what you need.\n\nWhat specific information about Namibia are you looking for? I\x27ll get you a clear answer. 🎯").toList
  else if analysis.emotion == Emotion.confused then
    ("No worries - let\x27s clear this up! 🤝\n\nWhat would you like to know about Namibia? Take your time, I\x27m here to help make it simple. 😊").toList
  else if analysis.emotion == Emotion.satisfied then
    ("Glad I could help! 😊 Anything else about Namibia you\x27re curious about?").toList
  else matchToneResponse analysis results

/-- Embeds `ConversationalIntelligence._craft_response`: the strict priority chain. -/
def craftResponse (message : Str) (analysis : Analysis) (results : List KBResult) : Str :=
  if analysis.engagement_level == Engagement.low then handleLowEngagement message
  else if analysis.is_repeat then handleRepeatQuestion results
  else if analysis.is_vague then handleVagueQuestion message
  else if analysis.confidence < 7 then handleLowConfidence results
  else if !(analysis.emotion == Emotion.neutral) then handleEmotionalQuery analysis results
  else matchToneResponse analysis results

/-- The history-recording step of `generate_intelligent_response`: create the
entry if missing, append the message, keep only the last 5. -/
def recordMessage (st : HistState) (uid : Nat) (message : Str) : HistState :=
  let h := (histLookup st uid).getD []
  let h2 := h ++ [message]
  let h3 := if 5 < h2.length then keepLast 5 h2 else h2
  histSet st uid h3

/-- Embeds `ConversationalIntelligence.generate_intelligent_response`: analyze, record
the message into the bounded history of the user, craft the response.  (The
`response_type` argument of the source is never read by the response chain
and is omitted here, as are the unused `message`/`analysis` parameters of the
individual handlers.) -/
def generateIntelligentResponse (st : HistState) (message : Str) (uid : Nat)
    (results : List KBResult) : Str × HistState :=
  let a := analyzeUserIntent st message uid
  let st2 := recordMessage a.2 uid message
  (craftResponse message a.1 results, st2)

/-! ### Helper lemmas -/

/-- A list is a prefix of itself extended by anything. -/
theorem isPrefixOf_append_self (s v : Str) : s.isPrefixOf (s ++ v) = true := by
  induction s with
  | nil => simp [List.isPrefixOf]
  | cons c cs ih => simp [List.isPrefixOf, ih]

/-- Any explicitly decomposed substring is found by `containsSub`. -/
theorem containsSub_of_decomp (u s v : Str) : containsSub (u ++ s ++ v) s = true := by
  induction u with
  | nil =>
    unfold containsSub
    simp [isPrefixOf_append_self]
  | cons c cs ih =>
    unfold containsSub
    split
    · rfl
    · exact ih

/-- Dropping a while-prefix decomposes the list. -/
theorem dropWhile_decomp (p : Char → Bool) (l : Str) : ∃ u, l = u ++ l.dropWhile p := by
  induction l with
  | nil => exact ⟨[], rfl⟩
  | cons c cs ih =>
    by_cases h : p c = true
    · obtain ⟨u, hu⟩ := ih
      refine ⟨c :: u, ?_⟩
      simp only [List.dropWhile, h, List.cons_append]
      exact congrArg (c :: ·) hu
    · exact ⟨[], by simp [List.dropWhile, h]⟩

/-- Stripping whitespace keeps an infix of the original string. -/
theorem stripWS_decomp (l : Str) : ∃ u v, l = u ++ stripWS l ++ v := by
  obtain ⟨u, hu⟩ := dropWhile_decomp isPySpace l
  obtain ⟨w, hw⟩ := dropWhile_decomp isPySpace (l.dropWhile isPySpace).reverse
  refine ⟨u, w.reverse, ?_⟩
  have key : l.dropWhile isPySpace = stripWS l ++ w.reverse := by
    calc l.dropWhile isPySpace
        = ((l.dropWhile isPySpace).reverse).reverse := (List.reverse_reverse _).symm
      _ = (w ++ (l.dropWhile isPySpace).reverse.dropWhile isPySpace).reverse := by rw [← hw]
      _ = stripWS l ++ w.reverse := by
          rw [List.reverse_append]
          rfl
  conv_lhs => rw [hu, key]
  simp [List.append_assoc]

/-- Every run produced by `wordRunsAux` is an infix of the processed text. -/
theorem wordRunsAux_decomp (l : Str) :
    ∀ cur, ∀ w ∈ wordRunsAux l cur, ∃ u v, cur.reverse ++ l = u ++ w ++ v := by
  induction l with
  | nil =>
    intro cur w hw
    unfold wordRunsAux at hw
    by_cases h : cur.isEmpty
    · simp [h] at hw
    · simp [h] at hw
      exact ⟨[], [], by simp [hw]⟩
  | cons c rest ih =>
    intro cur w hw
    unfold wordRunsAux at hw
    by_cases h1 : isWordChar c = true
    · rw [if_pos h1] at hw
      obtain ⟨u, v, huv⟩ := ih (c :: cur) w hw
      refine ⟨u, v, ?_⟩
      simpa using huv
    · rw [if_neg h1] at hw
      by_cases h2 : cur.isEmpty
      · rw [if_pos h2] at hw
        obtain ⟨u, v, huv⟩ := ih [] w hw
        simp only [List.reverse_nil, List.nil_append] at huv
        refine ⟨c :: u, v, ?_⟩
        have hc : cur = [] := by
          cases cur with
          | nil => rfl
          | cons a as => simp [List.isEmpty] at h2
        simp [hc, huv, List.append_assoc]
      · rw [if_neg h2] at hw
        rcases List.mem_cons.mp hw with rfl | hmem
        · exact ⟨[], c :: rest, by simp⟩
        · obtain ⟨u, v, huv⟩ := ih [] w hmem
          simp only [List.reverse_nil, List.nil_append] at huv
          refine ⟨cur.reverse ++ c :: u, v, ?_⟩
          simp [huv, List.append_assoc]

/-- Every maximal word run is an infix of the scanned string. -/
theorem wordRuns_decomp (l : Str) : ∀ w ∈ wordRuns l, ∃ u v, l = u ++ w ++ v := by
  intro w hw
  have := wordRunsAux_decomp l [] w hw
  simpa using this

/-- Every alphabetic token is an infix of the scanned string. -/
theorem alphaTokens3_decomp (l : Str) : ∀ w ∈ alphaTokens3 l, ∃ u v, l = u ++ w ++ v := by
  intro w hw
  exact wordRuns_decomp l w (List.mem_of_mem_filter hw)

/-- Mapping a function over a string maps over any decomposition. -/
theorem lowerStr_decomp {l u s v : Str} (h : l = u ++ s ++ v) :
    lowerStr l = lowerStr u ++ lowerStr s ++ lowerStr v := by
  simp [lowerStr, h]

/-- Composition of substring decompositions. -/
theorem decomp_trans {l m w : Str} (h1 : ∃ u v, l = u ++ m ++ v) (h2 : ∃ u v, m = u ++ w ++ v) :
    ∃ u v, l = u ++ w ++ v := by
  obtain ⟨u1, v1, e1⟩ := h1
  obtain ⟨u2, v2, e2⟩ := h2
  exact ⟨u1 ++ u2, v2 ++ v1, by simp [e1, e2]⟩

/-- Membership in the insertion step of the stable descending sort. -/
theorem insertDescBy_mem {α : Type} (k : α → Int) (x y : α) (l : List α) :
    y ∈ insertDescBy k x l ↔ y = x ∨ y ∈ l := by
  induction l with
  | nil => simp [insertDescBy]
  | cons z zs ih =>
    unfold insertDescBy
    split
    · simp [List.mem_cons]
    · simp [List.mem_cons, ih]
      tauto

/-- The insertion step preserves sortedness by non-increasing key. -/
theorem insertDescBy_pairwise {α : Type} (k : α → Int) (x : α) (l : List α)
    (h : l.Pairwise fun a b => k b ≤ k a) :
    (insertDescBy k x l).Pairwise fun a b => k b ≤ k a := by
  induction l with
  | nil => simp [insertDescBy]
  | cons z zs ih =>
    rw [List.pairwise_cons] at h
    unfold insertDescBy
    split
    · rename_i hlt
      rw [List.pairwise_cons]
      constructor
      · intro y hy
        rcases List.mem_cons.mp hy with rfl | hmem
        · exact le_of_lt hlt
        · exact le_trans (h.1 y hmem) (le_of_lt hlt)
      · exact List.pairwise_cons.mpr h
    · rename_i hnlt
      rw [List.pairwise_cons]
      constructor
      · intro y hy
        rcases (insertDescBy_mem k x y zs).mp hy with rfl | hmem
        · exact le_of_not_lt hnlt
        · exact h.1 y hmem
      · exact ih h.2

/-- Folding insertions preserves sortedness by non-increasing key. -/
theorem foldl_insertDescBy_pairwise {α : Type} (k : α → Int) (l acc : List α)
    (h : acc.Pairwise fun a b => k b ≤ k a) :
    (l.foldl (fun acc x => insertDescBy k x acc) acc).Pairwise fun a b => k b ≤ k a := by
  induction l generalizing acc with
  | nil => exact h
  | cons x xs ih =>
    exact ih _ (insertDescBy_pairwise k x acc h)

/-- The stable descending sort is sorted by non-increasing key. -/
theorem sortDescBy_pairwise {α : Type} (k : α → Int) (l : List α) :
    (sortDescBy k l).Pairwise fun a b => k b ≤ k a :=
  foldl_insertDescBy_pairwise k l [] (by simp)

/-! ### Claim C5 — empty normalized query token set -/

/-- C5: for every query whose normalized token set is empty, `search_documents`
returns the empty list, whatever the chunk index and limit are. -/
theorem C5_empty_tokens_empty_result (chunks : List Chunk) (query : Str) (limit : Nat)
    (h : searchQueryWords query = []) : searchDocuments chunks query limit = [] := by
  unfold searchDocuments
  rw [h]
  simp

/-- A sample chunk used by concrete witnesses. -/
def etoshaChunk : Chunk :=
  { text := ("Etosha National Park is in northern Namibia and hosts many animals for visitors today.").toList
    filename := ("parks.txt").toList
    word_count := 14
    keywords := []
    is_summary := false }

/-- Witness for C5: a concrete all-stop-word query against a non-empty index. -/
theorem C5_empty_tokens_empty_result_witness :
    searchDocuments [etoshaChunk] (("tell me about").toList) 2 = [] :=
  C5_empty_tokens_empty_result [etoshaChunk] (("tell me about").toList) 2 (by decide)

/-! ### Claim C3 — engagement classification -/

/-- C3 counterexample: a six-word substantive message without `!` that merely
contains the letter `k` inside the word `knowledge` is classified `low`, while
the claim predicts `medium` (it is none of the five acknowledgments, has at
most 10 words and no `!`). -/
theorem C3_counterexample :
    assessEngagement (("please share detailed knowledge about wildlife").toList) = Engagement.low ∧
    (("please share detailed knowledge about wildlife").toList ∉
      (["ok", "hmm", "k", "alright", "whatever"] : List String).map String.toList) ∧
    (pySplit (("please share detailed knowledge about wildlife").toList)).length ≤ 10 ∧
    containsSub (("please share detailed knowledge about wildlife").toList) (("!").toList) =
      false := by
  decide

/-- C3 amended: the engagement classifier returns `low` exactly when one of the
five low-effort strings occurs as a **substring** of the trimmed lower-cased
message; otherwise `high` exactly when the word count exceeds 10 or `!`
occurs; `medium` in all remaining cases. -/
theorem C3_amended_engagement_characterization (ml : Str) :
    (assessEngagement ml = Engagement.low ↔
      (["ok", "hmm", "k", "alright", "whatever"] : List String).any
        (fun x => containsSub ml x.toList) = true) ∧
    (assessEngagement ml = Engagement.high ↔
      (["ok", "hmm", "k", "alright", "whatever"] : List String).any
        (fun x => containsSub ml x.toList) = false ∧
      (decide (10 < (pySplit ml).length) || containsSub ml (("!").toList)) = true) ∧
    (assessEngagement ml = Engagement.medium ↔
      (["ok", "hmm", "k", "alright", "whatever"] : List String).any
        (fun x => containsSub ml x.toList) = false ∧
      (decide (10 < (pySplit ml).length) || containsSub ml (("!").toList)) = false) := by
  unfold assessEngagement
  rcases hA : (["ok", "hmm", "k", "alright", "whatever"] : List String).any
      (fun x => containsSub ml x.toList) with _ | _ <;>
    rcases hB : (decide (10 < (pySplit ml).length) || containsSub ml (("!").toList)) with _ | _ <;>
      simp [hA, hB]

/-! ### Claim C2 — character budget of the summarizer/truncator -/

/-- A 439-character text of 110 three-character sentences: the fallback packing
loop of `_smart_truncate` counts only sentence lengths (330), never the 109
joining spaces, and the no-query branch never re-checks the joined length. -/
def exC2text : Str := joinSp (List.replicate 110 (("ab.").toList))

/-- C2 failing input: on a 439-character input with budget 400 and no query,
`_summarize_chunk`/`_smart_truncate` return the whole 439-character input
unchanged — the configured character budget is exceeded. -/
theorem C2_budget_exceeded :
    summarizeChunk exC2text none = exC2text ∧
    smartTruncate exC2text 400 none = exC2text ∧
    exC2text.length = 439 := by
  decide

/-! ### Claim C1 — sentence order in the summarizer -/

/-- First sentence of the C1 chunk: contains the query word `alpha` once. -/
def s1C1 : Str :=
  ("alpha stays close to the calm river bank and waits there patiently while evening settles down slowly over the whole wide valley tonight without any hurry at all.").toList

/-- Second sentence of the C1 chunk: contains both `alpha` and `beta`. -/
def s2C1 : Str := ("alpha beta appears again because alpha beta really matters.").toList

/-- The C1 chunk: `s1C1` before `s2C1` in document order, 221 characters. -/
def ctC1 : Str := s1C1 ++ ' ' :: s2C1

/-- The C1 query. -/
def qC1 : Str := ("alpha beta").toList

/-- C1 counterexample: on a 221-character chunk whose second sentence scores
higher than its first, `_summarize_chunk` joins the kept sentences in
score-rank order (`s2C1` before `s1C1`), not in their document order. -/
theorem C1_counterexample :
    splitSentences ctC1 = [s1C1, s2C1] ∧
    summarizeChunk ctC1 (some qC1) = s2C1 ++ ' ' :: s1C1 ∧
    (s2C1 ++ ' ' :: s1C1 ≠ s1C1 ++ ' ' :: s2C1) ∧
    200 ≤ ctC1.length := by
  decide

/-- C1 amended: for chunks of at least 200 characters with a truthy query and
at least one relevant sentence, when the joined selection fits the 400
character budget, `_summarize_chunk` returns the kept (at most 3
highest-scoring) sentences joined in **descending score order** (the stable
sort keeps equal scores in document order), so the scores of the kept
sentences read non-increasingly — not in original document order. -/
theorem C1_amended_score_rank_order (ct q : Str)
    (h1 : queryTruthy (some q) = true)
    (h2 : 200 ≤ ct.length)
    (h3 : relevantSentences ct q ≠ [])
    (h4 : (joinSp (((sortDescBy (fun p => (p.1 : Int)) (relevantSentences ct q)).take 3).map
      Prod.snd)).length ≤ 400) :
    summarizeChunk ct (some q) =
      joinSp (((sortDescBy (fun p => (p.1 : Int)) (relevantSentences ct q)).take 3).map
        Prod.snd) ∧
    ((sortDescBy (fun p => (p.1 : Int)) (relevantSentences ct q)).take 3).Pairwise
      (fun a b => b.1 ≤ a.1) := by
  constructor
  · unfold summarizeChunk
    have hcond : (!queryTruthy (some q) || decide (ct.length < 200)) = false := by
      rw [h1]
      simp
      omega
    rw [hcond]
    simp only [Bool.false_eq_true, if_false, Option.getD_some]
    have hrel : (relevantSentences ct q).isEmpty = false := by
      cases hx : relevantSentences ct q with
      | nil => exact absurd hx h3
      | cons a as => rfl
    rw [hrel]
    simp only [Bool.not_false, if_true]
    have hfit : ¬ (400 < (joinSp (((sortDescBy (fun p => (p.1 : Int))
        (relevantSentences ct q)).take 3).map Prod.snd)).length) := by
      omega
    rw [if_neg hfit]
  · have hp := List.Pairwise.sublist (List.take_sublist 3 _)
      (sortDescBy_pairwise (fun p => (p.1 : Int)) (relevantSentences ct q))
    exact hp.imp fun h => by exact_mod_cast h

/-- Witness for the amended C1 on the concrete chunk and query. -/
theorem C1_amended_witness :
    summarizeChunk ctC1 (some qC1) =
      joinSp (((sortDescBy (fun p => (p.1 : Int)) (relevantSentences ctC1 qC1)).take 3).map
        Prod.snd) ∧
    ((sortDescBy (fun p => (p.1 : Int)) (relevantSentences ctC1 qC1)).take 3).Pairwise
      (fun a b => b.1 ≤ a.1) :=
  C1_amended_score_rank_order ctC1 qC1 (by decide) (by decide) (by decide) (by decide)

/-! ### Claim C7 — the synthesized summary chunk -/

/-- Topical chunk constructor never sets the summary flag. -/
theorem mkChunk_not_summary (fn : Str) (buf : List Str) (cnt : Nat) :
    (mkChunk fn buf cnt).is_summary = false := rfl

/-- One chunker step only ever appends chunks built by `mkChunk fn`: any
property of all `mkChunk fn` chunks is preserved by the step. -/
theorem chunkStep_preserves (fn : Str) (size : Nat) (P : Chunk → Prop)
    (hmk : ∀ buf cnt, P (mkChunk fn buf cnt)) (st : List Chunk × List Str × Nat)
    (s : Str) (h : ∀ c ∈ st.1, P c) :
    ∀ c ∈ (chunkStep fn size st s).1, P c := by
  intro c hc
  unfold chunkStep at hc
  dsimp only at hc
  split at hc
  · exact h c hc
  · split at hc
    · split at hc <;> dsimp only at hc <;>
        [skip; skip] <;>
        first
        | (rcases List.mem_append.mp hc with h2 | h2
           · split at h2
             · rcases List.mem_append.mp h2 with h3 | h3
               · exact h c h3
               · simp only [List.mem_singleton] at h3
                 rw [h3]
                 exact hmk _ _
             · exact h c h2
           · simp only [List.mem_singleton] at h2
             rw [h2]
             exact hmk _ _)
        | (split at hc
           · rcases List.mem_append.mp hc with h3 | h3
             · exact h c h3
             · simp only [List.mem_singleton] at h3
               rw [h3]
               exact hmk _ _
           · exact h c hc)
    · split at hc <;> dsimp only at hc
      · rcases List.mem_append.mp hc with h2 | h2
        · exact h c h2
        · simp only [List.mem_singleton] at h2
          rw [h2]
          exact hmk _ _
      · exact h c hc

/-- The sentence loop only ever appends chunks built by `mkChunk fn`. -/
theorem chunkFoldl_preserves (fn : Str) (size : Nat) (P : Chunk → Prop)
    (hmk : ∀ buf cnt, P (mkChunk fn buf cnt)) (sents : List Str)
    (st : List Chunk × List Str × Nat) (h : ∀ c ∈ st.1, P c) :
    ∀ c ∈ (sents.foldl (chunkStep fn size) st).1, P c := by
  induction sents generalizing st with
  | nil => exact h
  | cons s rest ih => exact ih _ (chunkStep_preserves fn size P hmk st s h)

/-- Every topical chunk satisfies any property of all `mkChunk fn` chunks. -/
theorem topicalChunks_preserves (t fn : Str) (size : Nat) (P : Chunk → Prop)
    (hmk : ∀ buf cnt, P (mkChunk fn buf cnt)) :
    ∀ c ∈ topicalChunks t fn size, P c := by
  intro c hc
  unfold topicalChunks at hc
  dsimp only at hc
  split at hc
  · rcases List.mem_append.mp hc with h2 | h2
    · exact chunkFoldl_preserves fn size P hmk _ _ (by simp) c h2
    · simp only [List.mem_singleton] at h2
      rw [h2]
      exact hmk _ _
  · exact chunkFoldl_preserves fn size P hmk _ _ (by simp) c hc

/-- No topical chunk carries the summary flag. -/
theorem topicalChunks_not_summary (t fn : Str) (size : Nat) :
    ∀ c ∈ topicalChunks t fn size, c.is_summary = false :=
  topicalChunks_preserves t fn size _ fun _ _ => rfl

/-- Every topical chunk carries the source filename. -/
theorem topicalChunks_filename (t fn : Str) (size : Nat) :
    ∀ c ∈ topicalChunks t fn size, c.filename = fn :=
  topicalChunks_preserves t fn size _ fun _ _ => rfl

/-- Every created chunk (summary included) carries the source filename. -/
theorem createChunks_filename (t fn : Str) (size : Nat) :
    ∀ c ∈ createChunks t fn size, c.filename = fn := by
  intro c hc
  unfold createChunks at hc
  dsimp only at hc
  split at hc
  · simp at hc
  · rcases List.mem_cons.mp hc with h2 | h2
    · rw [h2]
      rfl
    · exact topicalChunks_filename t fn size c h2

/-- The summary chunk carries the flag. -/
theorem summaryChunk_is_summary (fn : Str) (cs : List Chunk) :
    (summaryChunk fn cs).is_summary = true := rfl

/-- The summary chunk text never exceeds 500 characters. -/
theorem summaryChunk_len_le (fn : Str) (cs : List Chunk) :
    (summaryChunk fn cs).text.length ≤ 500 := by
  unfold summaryChunk
  dsimp only
  split
  · rename_i hgt
    simp only [List.length_append, List.length_take]
    have : ("...").toList.length = 3 := rfl
    omega
  · rename_i hle
    omega

/-- C7: whenever a document yields at least one chunk, the chunk list starts
with the synthesized summary chunk (`is_summary = true`, text at most 500
characters) and it is the only chunk with the summary flag. -/
theorem C7_summary_chunk_head (t fn : Str) (h : createChunks t fn 300 ≠ []) :
    ∃ s rest, createChunks t fn 300 = s :: rest ∧ s.is_summary = true ∧
      s.text.length ≤ 500 ∧ ∀ c ∈ rest, c.is_summary = false := by
  unfold createChunks at h ⊢
  dsimp only at h ⊢
  by_cases he : (topicalChunks t fn 300).isEmpty
  · rw [if_pos he] at h
    exact absurd rfl h
  · rw [if_neg he]
    exact ⟨summaryChunk fn (topicalChunks t fn 300), topicalChunks t fn 300, rfl,
      summaryChunk_is_summary fn _, summaryChunk_len_le fn _, topicalChunks_not_summary t fn 300⟩

/-- A 30-word single-sentence document used by concrete witnesses. -/
def w7text : Str := joinSp (List.replicate 30 (("word").toList))

/-- Witness for C7 on a concrete document that yields one topical chunk. -/
theorem C7_summary_chunk_head_witness :
    ∃ s rest, createChunks w7text (("w.txt").toList) 300 = s :: rest ∧ s.is_summary = true ∧
      s.text.length ≤ 500 ∧ ∀ c ∈ rest, c.is_summary = false :=
  C7_summary_chunk_head w7text (("w.txt").toList) (by decide)

/-! ### Claim C9 — re-ingestion fully replaces a document -/

/-- Filtering with a predicate straight after filtering with its negation
leaves nothing. -/
theorem filter_filter_not_nil {α : Type} (p : α → Bool) (l : List α) :
    (l.filter fun a => !(p a)).filter p = [] := by
  induction l with
  | nil => rfl
  | cons x xs ih =>
    by_cases h : p x = true
    · simp [List.filter, h, ih]
    · simp only [Bool.not_eq_true] at h
      simp [List.filter, h, ih]

/-- C9: after a (successful) re-ingestion of a filename, exactly one document
with that filename is stored, and the chunks carrying that filename are
exactly the chunks created from the newly ingested text — no duplicates, no
stale chunks. -/
theorem C9_reingest_replaces (st : RagState) (fn text : Str) :
    (((ingestDocument st fn text).documents.filter fun d => d.filename == fn).length = 1) ∧
    ((ingestDocument st fn text).document_chunks.filter fun c => c.filename == fn) =
      createChunks text fn 300 := by
  unfold ingestDocument
  dsimp only
  constructor
  · rw [List.filter_append, filter_filter_not_nil]
    simp
  · rw [List.filter_append, filter_filter_not_nil, List.nil_append]
    apply List.filter_eq_self.mpr
    intro c hc
    rw [createChunks_filename text fn 300 c hc]
    simp

/-! ### Claim C10 — analyze_user_intent never records messages -/

/-- Looking up the key just set returns the new value. -/
theorem histLookup_histSet_self (st : HistState) (uid : Nat) (h : List Str) :
    histLookup (histSet st uid h) uid = some h := by
  induction st with
  | nil => simp [histSet, histLookup, List.find?]
  | cons kv rest ih =>
    obtain ⟨k, val⟩ := kv
    unfold histSet
    by_cases hk : (k == uid) = true
    · rw [if_pos hk]
      simp [histLookup, List.find?, hk]
    · rw [if_neg hk]
      unfold histLookup at ih ⊢
      simp only [List.find?, hk]
      exact ih

/-- Setting one key leaves every other key unchanged. -/
theorem histLookup_histSet_other (st : HistState) (uid : Nat) (h : List Str) (v : Nat)
    (hne : v ≠ uid) : histLookup (histSet st uid h) v = histLookup st v := by
  induction st with
  | nil =>
    have huv : (uid == v) = false := beq_eq_false_iff_ne.mpr (Ne.symm hne)
    simp [histSet, histLookup, List.find?, huv]
  | cons kv rest ih =>
    obtain ⟨k, val⟩ := kv
    unfold histSet
    by_cases hk : (k == uid) = true
    · rw [if_pos hk]
      have hkv : ¬ ((k == v) = true) := by
        simp only [beq_iff_eq] at hk ⊢
        rw [hk]
        exact fun heq => absurd heq.symm hne
      simp [histLookup, List.find?, hkv]
    · rw [if_neg hk]
      unfold histLookup at ih ⊢
      by_cases hkv : (k == v) = true
      · simp [List.find?, hkv]
      · simp only [List.find?, hkv]
        exact ih

/-- The state effect of `analyze_user_intent` is invisible to `histOf`: every
stored message sequence of every user is unchanged. -/
theorem histOf_analyze_frame (st : HistState) (message : Str) (uid v : Nat) :
    histOf (analyzeUserIntent st message uid).2 v = histOf st v := by
  unfold analyzeUserIntent
  dsimp only
  unfold isRepeatQuestion
  cases hl : histLookup st uid with
  | none =>
    dsimp only
    by_cases hv : v = uid
    · subst hv
      unfold histOf
      rw [histLookup_histSet_self, hl]
      rfl
    · unfold histOf
      rw [histLookup_histSet_other st uid [] v hv]
  | some h => rfl

/-- C10: the function `analyze_user_intent` never appends the message to any
history (it at most creates an empty entry for an unseen user), and for a
user with empty stored history it reports `is_repeat = false`. -/
theorem C10_analyze_intent_frame (st : HistState) (message : Str) (uid : Nat) :
    (∀ v, histOf (analyzeUserIntent st message uid).2 v = histOf st v) ∧
    (histOf st uid = [] → (analyzeUserIntent st message uid).1.is_repeat = false) := by
  constructor
  · intro v
    exact histOf_analyze_frame st message uid v
  · intro hempty
    unfold analyzeUserIntent
    dsimp only
    unfold isRepeatQuestion
    cases hl : histLookup st uid with
    | none => rfl
    | some h =>
      dsimp only
      have hnil : h = [] := by
        unfold histOf at hempty
        rw [hl] at hempty
        exact hempty
      rw [hnil]
      rfl

/-- Witness for C10 at a concrete state, message and user. -/
theorem C10_analyze_intent_frame_witness :
    histOf ((analyzeUserIntent [] (("where is etosha").toList) 3).2) 3 =
      histOf ([] : HistState) 3 ∧
    ((analyzeUserIntent [] (("where is etosha").toList) 3).1).is_repeat = false :=
  ⟨(C10_analyze_intent_frame [] (("where is etosha").toList) 3).1 3,
   (C10_analyze_intent_frame [] (("where is etosha").toList) 3).2 (by decide)⟩

/-! ### Claim C8 — repeat detection and the bounded history -/

/-- Python `l[-n:]` never holds more than `n` elements. -/
theorem keepLast_length_le {α : Type} (n : Nat) (l : List α) : (keepLast n l).length ≤ n := by
  unfold keepLast
  rw [List.length_drop]
  omega

/-- For positive `n`, `l[-n:]` of a list ending in `a` still ends in `a`. -/
theorem keepLast_append_last {α : Type} (n : Nat) (hn : 1 ≤ n) (l : List α) (a : α) :
    ∃ y, keepLast n (l ++ [a]) = y ++ [a] := by
  unfold keepLast
  have hlen : (l ++ [a]).length = l.length + 1 := by simp
  rw [hlen]
  have h : l.length + 1 - n ≤ l.length := by omega
  exact ⟨l.drop (l.length + 1 - n), by rw [List.drop_append_of_le_length h]⟩

/-- Taking the last `n` twice around an append is the same as taking it once. -/
theorem keepLast_append_one {α : Type} (n : Nat) (l : List α) (a : α) :
    keepLast n (keepLast n l ++ [a]) = keepLast n (l ++ [a]) := by
  unfold keepLast
  by_cases hle : l.length ≤ n
  · have h1 : l.length - n = 0 := by omega
    rw [h1, List.drop_zero]
  · by_cases hn : n = 0
    · subst hn
      have h1 : (l.drop (l.length - 0) ++ [a]).length - 0 = 1 := by
        simp
      have h2 : (l ++ [a]).length - 0 = l.length + 1 := by simp
      rw [h1, h2]
      have h3 : l.drop l.length = ([] : List α) := by simp
      simp [h3]
    · have hlen1 : (l.drop (l.length - n) ++ [a]).length = n + 1 := by
        simp
        omega
      have hlen2 : (l ++ [a]).length = l.length + 1 := by simp
      rw [hlen1, hlen2]
      have h1 : n + 1 - n = 1 := by omega
      have h2 : (1 : Nat) ≤ (l.drop (l.length - n)).length := by
        rw [List.length_drop]
        omega
      rw [h1, List.drop_append_of_le_length h2, List.drop_drop]
      have h3 : l.length + 1 - n ≤ l.length := by omega
      rw [List.drop_append_of_le_length h3]
      have h4 : l.length - n + 1 = l.length + 1 - n := by omega
      rw [h4]

/-- After `recordMessage`, the entry of the user holds the last 5 of the
extended history. -/
theorem histLookup_recordMessage_self (st : HistState) (uid : Nat) (m : Str) :
    histLookup (recordMessage st uid m) uid = some (keepLast 5 (histOf st uid ++ [m])) := by
  unfold recordMessage
  dsimp only
  rw [histLookup_histSet_self]
  congr 1
  by_cases h5 : 5 < ((histLookup st uid).getD [] ++ [m]).length
  · rw [if_pos h5]
    rfl
  · rw [if_neg h5]
    unfold keepLast histOf
    have h0 : ((histLookup st uid).getD [] ++ [m]).length - 5 = 0 := by omega
    rw [h0, List.drop_zero]

/-- Function `recordMessage` seen through `histOf`. -/
theorem histOf_recordMessage_self (st : HistState) (uid : Nat) (m : Str) :
    histOf (recordMessage st uid m) uid = keepLast 5 (histOf st uid ++ [m]) := by
  unfold histOf
  rw [histLookup_recordMessage_self]
  rfl

/-- Function `recordMessage` touches the history of no other user. -/
theorem histOf_recordMessage_other (st : HistState) (uid : Nat) (m : Str) (v : Nat)
    (hne : v ≠ uid) : histOf (recordMessage st uid m) v = histOf st v := by
  unfold recordMessage histOf
  dsimp only
  rw [histLookup_histSet_other _ _ _ _ hne]

/-- Inserting into a set representation never shrinks it. -/
theorem setInsert_length_le (x : Str) (l : List Str) : l.length ≤ (setInsert x l).length := by
  unfold setInsert
  split
  · exact Nat.le_refl _
  · simp

/-- Folding set insertions never shrinks the accumulator. -/
theorem foldl_setInsert_length (l : List Str) :
    ∀ acc : List Str, acc.length ≤ (l.foldl (fun acc x => setInsert x acc) acc).length := by
  induction l with
  | nil => intro acc; exact Nat.le_refl _
  | cons x xs ih => intro acc; exact Nat.le_trans (setInsert_length_le x acc) (ih _)

/-- A message with at least one token has a non-empty token set. -/
theorem tokenSet_ne_nil (s : Str) (h : pySplit s ≠ []) : tokenSet s ≠ [] := by
  unfold tokenSet
  cases hx : pySplit s with
  | nil => exact absurd hx h
  | cons x xs =>
    simp only [List.foldl]
    intro hnil
    have h0 : (setInsert x []).length = 1 := rfl
    have h1 := foldl_setInsert_length xs (setInsert x [])
    rw [hnil] at h1
    simp [h0] at h1

/-- Jaccard similarity of a tokenized message with itself exceeds 0.6. -/
theorem similarity_self_exceeds (s : Str) (h : pySplit s ≠ []) :
    similarityGtPoint6 (calcSimilarity s s) = true := by
  have h3 : tokenSet s ≠ [] := tokenSet_ne_nil s h
  have hne : (tokenSet s).isEmpty = false := by
    cases htk : tokenSet s with
    | nil => exact absurd htk h3
    | cons a as => rfl
  unfold calcSimilarity similarityGtPoint6
  dsimp only
  rw [hne]
  have h1 : (tokenSet s).filter (fun w => (tokenSet s).contains w) = tokenSet s :=
    List.filter_eq_self.mpr fun a ha => by simpa using ha
  have h2 : (tokenSet s).filter (fun w => !((tokenSet s).contains w)) = [] := by
    rw [List.filter_eq_nil_iff]
    intro a ha
    simpa using ha
  simp only [Bool.or_self, Bool.false_eq_true, if_false, h1, h2, List.append_nil]
  have h4 : 1 ≤ (tokenSet s).length := by
    cases htk : tokenSet s with
    | nil => exact absurd htk h3
    | cons a as => simp
  simp only [decide_eq_true_eq]
  omega

/-- After the message was recorded, the same message is detected as a repeat
(provided it has at least one token). -/
theorem isRepeat_after_record (st : HistState) (uid : Nat) (msg : Str)
    (h : pySplit (lowerStr msg) ≠ []) :
    (isRepeatQuestion (recordMessage st uid msg) uid msg).1 = true := by
  unfold isRepeatQuestion
  rw [histLookup_recordMessage_self]
  dsimp only
  obtain ⟨y5, hy5⟩ := keepLast_append_last 5 (by omega) (histOf st uid) msg
  rw [hy5]
  obtain ⟨y3, hy3⟩ := keepLast_append_last 3 (by omega) y5 msg
  rw [hy3]
  rw [List.any_eq_true]
  exact ⟨msg, by simp, similarity_self_exceeds (lowerStr msg) h⟩

/-- C8 counterexample: the claim quantifies over **every** message, but an
empty message processed twice yields token sets that are empty, Jaccard
similarity 0.0, and `is_repeat = false` on the second occurrence. -/
theorem C8_counterexample :
    (analyzeUserIntent (generateIntelligentResponse [] [] 7 []).2 [] 7).1.is_repeat = false := by
  decide

/-- C8 amended: for every message with at least one whitespace-delimited
token, processing it twice through `generate_intelligent_response` makes the
analysis of the second occurrence report `is_repeat = true`; the stored
history of the user is the last 5 of the old history extended by both
occurrences (so it never exceeds 5 entries, oldest evicted first), and the
history of no other user changes. -/
theorem C8_amended_repeat_detection (st : HistState) (msg : Str) (uid : Nat)
    (results : List KBResult) (h : pySplit (lowerStr msg) ≠ []) :
    (analyzeUserIntent (generateIntelligentResponse st msg uid results).2 msg uid).1.is_repeat =
      true ∧
    histOf (generateIntelligentResponse (generateIntelligentResponse st msg uid results).2 msg uid
        results).2 uid = keepLast 5 (histOf st uid ++ [msg, msg]) ∧
    (histOf (generateIntelligentResponse (generateIntelligentResponse st msg uid results).2 msg uid
        results).2 uid).length ≤ 5 ∧
    ∀ v, v ≠ uid →
      histOf (generateIntelligentResponse (generateIntelligentResponse st msg uid results).2 msg
        uid results).2 v = histOf st v := by
  have hgen : ∀ t : HistState,
      (generateIntelligentResponse t msg uid results).2 =
        recordMessage (analyzeUserIntent t msg uid).2 uid msg := fun t => rfl
  have hself : ∀ t : HistState,
      histOf (generateIntelligentResponse t msg uid results).2 uid =
        keepLast 5 (histOf t uid ++ [msg]) := by
    intro t
    rw [hgen t, histOf_recordMessage_self, histOf_analyze_frame]
  refine ⟨?_, ?_, ?_, ?_⟩
  · have : (analyzeUserIntent (generateIntelligentResponse st msg uid results).2 msg
        uid).1.is_repeat =
        (isRepeatQuestion (recordMessage (analyzeUserIntent st msg uid).2 uid msg) uid msg).1 := by
      rw [hgen st]
      rfl
    rw [this]
    exact isRepeat_after_record _ uid msg h
  · rw [hself _, hself st, keepLast_append_one]
    have : (histOf st uid ++ [msg]) ++ [msg] = histOf st uid ++ [msg, msg] := by
      simp
    rw [this]
  · rw [hself _]
    exact keepLast_length_le 5 _
  · intro v hv
    rw [hgen _, histOf_recordMessage_other _ _ _ _ hv, histOf_analyze_frame,
      hgen st, histOf_recordMessage_other _ _ _ _ hv, histOf_analyze_frame]

/-- Witness for the amended C8 at a concrete user and message. -/
theorem C8_amended_repeat_detection_witness :
    (analyzeUserIntent (generateIntelligentResponse [] (("where is etosha park").toList) 7
        []).2 (("where is etosha park").toList) 7).1.is_repeat = true ∧
    histOf (generateIntelligentResponse (generateIntelligentResponse []
        (("where is etosha park").toList) 7 []).2 (("where is etosha park").toList) 7 []).2 7 =
      keepLast 5 (histOf [] 7 ++ [(("where is etosha park").toList),
        (("where is etosha park").toList)]) ∧
    (histOf (generateIntelligentResponse (generateIntelligentResponse []
        (("where is etosha park").toList) 7 []).2 (("where is etosha park").toList) 7 []).2
      7).length ≤ 5 ∧
    ∀ v, v ≠ 7 →
      histOf (generateIntelligentResponse (generateIntelligentResponse []
        (("where is etosha park").toList) 7 []).2 (("where is etosha park").toList) 7 []).2 v =
        histOf [] v :=
  C8_amended_repeat_detection [] (("where is etosha park").toList) 7 [] (by decide)

/-! ### Claim C6 — exact-phrase queries score at least 1000 -/

/-- Predicate `containsSub` holds whenever an explicit decomposition exists. -/
theorem containsSub_of_exists {hay sub : Str} (h : ∃ u v, hay = u ++ sub ++ v) :
    containsSub hay sub = true := by
  obtain ⟨u, v, huv⟩ := h
  rw [huv]
  exact containsSub_of_decomp u sub v

/-- Every normalized search token is an infix of the normalized query. -/
theorem searchQueryWords_decomp (q : Str) :
    ∀ w ∈ searchQueryWords q, ∃ u v, stripWS (lowerStr q) = u ++ w ++ v := by
  intro w hw
  exact alphaTokens3_decomp _ w (List.mem_of_mem_filter hw)

/-- C6: for every chunk and every query that occurs literally inside the
text of the chunk and has a non-empty normalized token set, the integer score
`search_documents` computes for that chunk is at least 1000. -/
theorem C6_literal_substring_scores (c : Chunk) (query : Str)
    (hne : searchQueryWords query ≠ [])
    (hsub : ∃ u v, c.text = u ++ query ++ v) :
    1000 ≤ chunkScore c query := by
  have hql : ∃ u v, lowerStr c.text = u ++ stripWS (lowerStr query) ++ v := by
    have h1 : ∃ u v, lowerStr c.text = u ++ lowerStr query ++ v := by
      obtain ⟨u, v, huv⟩ := hsub
      exact ⟨lowerStr u, lowerStr v, lowerStr_decomp huv⟩
    exact decomp_trans h1 (stripWS_decomp (lowerStr query))
  have hphrase : containsSub (lowerStr c.text) (stripWS (lowerStr query)) = true :=
    containsSub_of_exists hql
  have htok : ∀ w ∈ searchQueryWords query, containsSub (lowerStr c.text) w = true := by
    intro w hw
    exact containsSub_of_exists (decomp_trans hql (searchQueryWords_decomp query w hw))
  have hfilter : ((searchQueryWords query).filter
      fun w => containsSub (lowerStr c.text) w) = searchQueryWords query :=
    List.filter_eq_self.mpr htok
  have hklen : 0 < (searchQueryWords query).length := by
    cases hq : searchQueryWords query with
    | nil => exact absurd hq hne
    | cons a as => simp
  have hqe : (searchQueryWords query).isEmpty = false := by
    cases hq : searchQueryWords query with
    | nil => exact absurd hq hne
    | cons a as => rfl
  have hallcond : (((searchQueryWords query).all fun w => containsSub (lowerStr c.text) w) &&
      !(searchQueryWords query).isEmpty) = true := by
    rw [List.all_eq_true.mpr htok, hqe]
    rfl
  unfold chunkScore
  dsimp only
  rw [if_pos hphrase, if_pos hallcond, hfilter, if_pos hklen]
  have hdiv : (searchQueryWords query).length * 200 / (searchQueryWords query).length = 200 :=
    Nat.mul_div_cancel_left 200 hklen
  rw [hdiv]
  have hprox : 0 ≤ proximityBonus (pySplit (lowerStr c.text)) (searchQueryWords query) := by
    unfold proximityBonus
    split <;> omega
  have hsum : (0:Int) ≤ (if c.is_summary = true then (150:Int) else 0) := by
    split <;> omega
  have hlenb : (-30:Int) ≤ (if (pySplit (lowerStr c.text)).length < 100 then (50:Int)
      else if 300 < (pySplit (lowerStr c.text)).length then (-30:Int) else 0) := by
    split
    · omega
    · split <;> omega
  have hqb : (0:Int) ≤ 50 * (((questionWords7.filter fun w =>
      containsSub (stripWS (lowerStr query)) w && containsSub (lowerStr c.text) w).length : Int)) := by
    positivity
  have hpen : (-100:Int) ≤ (if (("welcome to").toList).isPrefixOf (lowerStr c.text) ||
      pyIsUpper (lowerStr c.text) then (-100:Int) else 0) := by
    split <;> omega
  have hk100 : (0:Int) ≤ 100 * ((searchQueryWords query).length : Int) := by positivity
  linarith [hprox, hsum, hlenb, hqb, hpen, hk100]

/-- Witness for C6: the literal query `Etosha National Park` against the
sample chunk that contains it. -/
theorem C6_literal_substring_scores_witness :
    1000 ≤ chunkScore etoshaChunk (("Etosha National Park").toList) :=
  C6_literal_substring_scores etoshaChunk (("Etosha National Park").toList) (by decide)
    ⟨[], (" is in northern Namibia and hosts many animals for visitors today.").toList, by decide⟩

/-! ### Claim C4 — chunk count for a 600-word heading-free document -/

/-- On a stripped, non-heading sentence of at least 3 words, a chunker step is
plain accumulation with a flush at 300 words. -/
theorem chunkStep_simple (fn : Str) (cs : List Chunk) (buf : List Str) (cnt : Nat) (s : Str)
    (hstrip : stripWS s = s) (hwc : 3 ≤ wordCount s) (hhead : isHeading s = false) :
    chunkStep fn 300 (cs, buf, cnt) s =
      if 300 ≤ cnt + wordCount s then
        (cs ++ [mkChunk fn (buf ++ [s]) (cnt + wordCount s)], [], 0)
      else (cs, buf ++ [s], cnt + wordCount s) := by
  unfold chunkStep
  dsimp only
  rw [hstrip]
  have hne : s.isEmpty = false := by
    cases s with
    | nil =>
      have h0 : wordCount ([] : Str) = 0 := rfl
      omega
    | cons a as => rfl
  have hno : (s.isEmpty || decide ((pySplit s).length < 3)) = false := by
    rw [hne]
    simp only [Bool.false_or, decide_eq_false_iff_not]
    unfold wordCount at hwc
    omega
  rw [hno]
  simp only [Bool.false_eq_true, if_false]
  have hcond2 : (isHeading s && !buf.isEmpty) = false := by
    rw [hhead]
    rfl
  rw [hcond2]
  simp only [Bool.false_eq_true, if_false]
  rfl

/-- While the running word count stays below 300, the chunker loop only
accumulates: no chunk is flushed. -/
theorem chunkFold_noflush (fn : Str) :
    ∀ (sents : List Str) (cs : List Chunk) (buf : List Str) (cnt : Nat),
      (∀ s ∈ sents, stripWS s = s ∧ isHeading s = false ∧ 3 ≤ wordCount s) →
      cnt + (sents.map wordCount).sum < 300 →
      sents.foldl (chunkStep fn 300) (cs, buf, cnt) =
        (cs, buf ++ sents, cnt + (sents.map wordCount).sum) := by
  intro sents
  induction sents with
  | nil =>
    intro cs buf cnt _ _
    simp
  | cons s rest ih =>
    intro cs buf cnt hs hlt
    obtain ⟨h1, h2, h3⟩ := hs s (List.mem_cons_self s rest)
    simp only [List.map_cons, List.sum_cons] at hlt
    rw [List.foldl_cons, chunkStep_simple fn cs buf cnt s h1 h3 h2,
      if_neg (by omega : ¬ (300 ≤ cnt + wordCount s))]
    rw [ih cs (buf ++ [s]) (cnt + wordCount s)
      (fun x hx => hs x (List.mem_cons_of_mem s hx)) (by omega)]
    have e1 : (buf ++ [s]) ++ rest = buf ++ s :: rest := by simp
    have e2 : cnt + wordCount s + (rest.map wordCount).sum =
        cnt + ((s :: rest).map wordCount).sum := by
      simp only [List.map_cons, List.sum_cons]
      omega
    rw [e1, e2]

/-- When the sentences ahead carry at least 300 more words, the loop flushes a
first chunk: the sentence list splits at the first prefix reaching 300 words
(starting from the running count), and the loop continues from a fresh state
with that chunk appended. -/
theorem chunkFold_firstflush (fn : Str) :
    ∀ (sents : List Str) (cs : List Chunk) (buf : List Str) (cnt : Nat),
      (∀ s ∈ sents, stripWS s = s ∧ isHeading s = false ∧ 3 ≤ wordCount s) →
      300 ≤ cnt + (sents.map wordCount).sum →
      cnt < 300 →
      ∃ L1 s L2, sents = L1 ++ s :: L2 ∧
        sents.foldl (chunkStep fn 300) (cs, buf, cnt) =
          L2.foldl (chunkStep fn 300)
            (cs ++ [mkChunk fn (buf ++ L1 ++ [s]) (cnt + ((L1 ++ [s]).map wordCount).sum)],
              [], 0) ∧
        cnt + (L1.map wordCount).sum < 300 ∧
        300 ≤ cnt + ((L1 ++ [s]).map wordCount).sum := by
  intro sents
  induction sents with
  | nil =>
    intro cs buf cnt hs hge hcnt
    simp at hge
    omega
  | cons s rest ih =>
    intro cs buf cnt hs hge hcnt
    obtain ⟨h1, h2, h3⟩ := hs s (List.mem_cons_self s rest)
    by_cases hflush : 300 ≤ cnt + wordCount s
    · refine ⟨[], s, rest, rfl, ?_, by simpa using hcnt, by simpa using hflush⟩
      rw [List.foldl_cons, chunkStep_simple fn cs buf cnt s h1 h3 h2, if_pos hflush]
      simp
    · rw [List.foldl_cons, chunkStep_simple fn cs buf cnt s h1 h3 h2, if_neg hflush]
      have hge' : 300 ≤ (cnt + wordCount s) + (rest.map wordCount).sum := by
        simp only [List.map_cons, List.sum_cons] at hge
        omega
      obtain ⟨L1, s', L2, hsplit, hfold, hlt1, hge1⟩ :=
        ih cs (buf ++ [s]) (cnt + wordCount s)
          (fun x hx => hs x (List.mem_cons_of_mem s hx)) hge' (by omega)
      refine ⟨s :: L1, s', L2, by rw [hsplit]; simp, ?_, ?_, ?_⟩
      · rw [hfold]
        have e1 : (buf ++ [s]) ++ L1 ++ [s'] = buf ++ (s :: L1) ++ [s'] := by simp
        have e2 : cnt + wordCount s + ((L1 ++ [s']).map wordCount).sum =
            cnt + (((s :: L1) ++ [s']).map wordCount).sum := by
          simp only [List.map_append, List.map_cons, List.sum_append, List.sum_cons]
          omega
        rw [e1, e2]
      · simp only [List.map_cons, List.sum_cons]
        omega
      · simp only [List.map_append, List.map_cons, List.sum_append, List.sum_cons] at hge1 ⊢
        omega

/-- Joining a split sentence list distributes over an append of two non-empty
halves. -/
theorem joinSp_append (g1 g2 : List Str) (h1 : g1 ≠ []) (h2 : g2 ≠ []) :
    joinSp (g1 ++ g2) = joinSp g1 ++ ' ' :: joinSp g2 := by
  induction g1 with
  | nil => exact absurd rfl h1
  | cons x xs ih =>
    cases xs with
    | nil =>
      cases g2 with
      | nil => exact absurd rfl h2
      | cons y ys => rfl
    | cons z zs =>
      calc joinSp ((x :: z :: zs) ++ g2)
          = x ++ ' ' :: joinSp ((z :: zs) ++ g2) := rfl
        _ = x ++ ' ' :: (joinSp (z :: zs) ++ ' ' :: joinSp g2) := by
            rw [ih (by simp)]
        _ = (x ++ ' ' :: joinSp (z :: zs)) ++ ' ' :: joinSp g2 := by simp
        _ = joinSp (x :: z :: zs) ++ ' ' :: joinSp g2 := rfl

/-- A list of sentences of at least 3 words each with zero total words is
empty. -/
theorem sum_words_zero_nil (L : List Str)
    (hs : ∀ s ∈ L, 3 ≤ wordCount s) (h0 : (L.map wordCount).sum = 0) : L = [] := by
  cases L with
  | nil => rfl
  | cons x xs =>
    have h3 := hs x (List.mem_cons_self x xs)
    simp only [List.map_cons, List.sum_cons] at h0
    omega

/-- C4 amended: a 600-word heading-free document (each sentence stripped, of 3
to 270 words, none a heading boundary) produces exactly **3** chunks: the
synthesized summary chunk followed by two topical chunks whose texts, joined,
cover the full sentence split of the document. -/
theorem C4_amended_three_chunks (t fn : Str)
    (hs : ∀ s ∈ splitSentences (stripWS (collapseWS t)),
      stripWS s = s ∧ isHeading s = false ∧ 3 ≤ wordCount s ∧ wordCount s ≤ 270)
    (hsum : ((splitSentences (stripWS (collapseWS t))).map wordCount).sum = 600) :
    ∃ g1 g2, splitSentences (stripWS (collapseWS t)) = g1 ++ g2 ∧ g1 ≠ [] ∧ g2 ≠ [] ∧
      createChunks t fn 300 =
        summaryChunk fn [mkChunk fn g1 ((g1.map wordCount).sum),
          mkChunk fn g2 ((g2.map wordCount).sum)] ::
        [mkChunk fn g1 ((g1.map wordCount).sum), mkChunk fn g2 ((g2.map wordCount).sum)] ∧
      joinSp g1 ++ ' ' :: joinSp g2 = joinSp (splitSentences (stripWS (collapseWS t))) := by
  have hs3 : ∀ s ∈ splitSentences (stripWS (collapseWS t)),
      stripWS s = s ∧ isHeading s = false ∧ 3 ≤ wordCount s := by
    intro s hsm
    obtain ⟨a, b, cle, _⟩ := hs s hsm
    exact ⟨a, b, cle⟩
  obtain ⟨L1, s1, L2, hsplit, hfold, hlt1, hge1⟩ :=
    chunkFold_firstflush fn (splitSentences (stripWS (collapseWS t))) [] [] 0 hs3
      (by rw [hsum]; omega) (by omega)
  have hs3L2 : ∀ s ∈ L2, stripWS s = s ∧ isHeading s = false ∧ 3 ≤ wordCount s := by
    intro s hsm
    exact hs3 s (by rw [hsplit]; exact List.mem_append_right L1 (List.mem_cons_of_mem s1 hsm))
  have hwc1 : wordCount s1 ≤ 270 := by
    have := hs s1 (by rw [hsplit]; exact List.mem_append_right L1 (List.mem_cons_self s1 L2))
    exact this.2.2.2
  have hsum_split : ((L1 ++ [s1]).map wordCount).sum + (L2.map wordCount).sum = 600 := by
    rw [← hsum, hsplit]
    simp only [List.map_append, List.map_cons, List.sum_append, List.sum_cons,
      List.map_nil, List.sum_nil]
    omega
  have hg1le : ((L1 ++ [s1]).map wordCount).sum ≤ 569 := by
    simp only [List.map_append, List.map_cons, List.sum_append, List.sum_cons,
      List.map_nil, List.sum_nil] at hge1 hlt1 ⊢
    omega
  have hg1ge : 300 ≤ ((L1 ++ [s1]).map wordCount).sum := by
    simpa using hge1
  have hL2ge : 31 ≤ (L2.map wordCount).sum := by omega
  refine ⟨L1 ++ [s1], L2, by rw [hsplit]; simp, by simp, ?_, ?_, ?_⟩
  · intro hL2
    rw [hL2] at hL2ge
    simp at hL2ge
  · -- the chunk list
    have hfold' : (splitSentences (stripWS (collapseWS t))).foldl (chunkStep fn 300)
        ([], [], 0) = L2.foldl (chunkStep fn 300)
          ([mkChunk fn (L1 ++ [s1]) (((L1 ++ [s1]).map wordCount).sum)], [], 0) := by
      rw [hfold]
      simp
    by_cases hcase : (L2.map wordCount).sum < 300
    · -- the tail stays in the buffer and is flushed as the trailing chunk
      have hnf := chunkFold_noflush fn L2
        [mkChunk fn (L1 ++ [s1]) (((L1 ++ [s1]).map wordCount).sum)] [] 0 hs3L2
        (by omega)
      unfold createChunks topicalChunks
      dsimp only
      rw [hfold', hnf]
      have hL2ne : L2 ≠ [] := by
        intro hL2
        rw [hL2] at hL2ge
        simp at hL2ge
      have hL2e : ((List.nil ++ L2 : List Str)).isEmpty = false := by
        cases hx : L2 with
        | nil => exact absurd hx hL2ne
        | cons a as => rfl
      rw [hL2e]
      have hc30 : (30 ≤ 0 + (L2.map wordCount).sum) := by omega
      simp only [Bool.not_false, Bool.true_and, decide_eq_true_eq]
      rw [if_pos hc30]
      simp
    · -- a second 300-word flush consumes the entire remaining tail
      have hL2sum : (L2.map wordCount).sum = 300 := by omega
      obtain ⟨M1, s2, M2, hsplit2, hfold2, hlt2, hge2⟩ :=
        chunkFold_firstflush fn L2
          [mkChunk fn (L1 ++ [s1]) (((L1 ++ [s1]).map wordCount).sum)] [] 0 hs3L2
          (by omega) (by omega)
      have hM2sum : (M2.map wordCount).sum = 0 := by
        have : ((M1 ++ [s2]).map wordCount).sum + (M2.map wordCount).sum = 300 := by
          rw [← hL2sum, hsplit2]
          simp only [List.map_append, List.map_cons, List.sum_append, List.sum_cons,
            List.map_nil, List.sum_nil]
          omega
        simp only [Nat.zero_add] at hge2
        omega
      have hM2nil : M2 = [] := by
        apply sum_words_zero_nil M2 _ hM2sum
        intro s hsm
        have hmem : s ∈ L2 := by
          rw [hsplit2]
          exact List.mem_append_right M1 (List.mem_cons_of_mem s2 hsm)
        exact (hs3L2 s hmem).2.2
      have hL2eq : L2 = M1 ++ [s2] := by
        rw [hsplit2, hM2nil]
      unfold createChunks topicalChunks
      dsimp only
      rw [hfold', hfold2, hM2nil]
      have hcnt2 : 0 + ((M1 ++ [s2]).map wordCount).sum = (L2.map wordCount).sum := by
        rw [hL2eq]
        omega
      rw [show (List.foldl (chunkStep fn 300)
          ([mkChunk fn (L1 ++ [s1]) (((L1 ++ [s1]).map wordCount).sum)] ++
            [mkChunk fn ([] ++ M1 ++ [s2]) (0 + ((M1 ++ [s2]).map wordCount).sum)], [], 0)
          ([] : List Str)) =
          ([mkChunk fn (L1 ++ [s1]) (((L1 ++ [s1]).map wordCount).sum)] ++
            [mkChunk fn ([] ++ M1 ++ [s2]) (0 + ((M1 ++ [s2]).map wordCount).sum)], [], 0)
        from rfl]
      dsimp only
      have e1 : ([] : List Str) ++ M1 ++ [s2] = L2 := by
        rw [hL2eq]
        simp
      have e2 : 0 + ((M1 ++ [s2]).map wordCount).sum = (L2.map wordCount).sum := hcnt2
      rw [e1, e2]
      simp
  · rw [hsplit]
    have hg1ne : L1 ++ [s1] ≠ [] := by simp
    have hL2ne : L2 ≠ [] := by
      intro hL2
      rw [hL2] at hL2ge
      simp at hL2ge
    rw [← joinSp_append (L1 ++ [s1]) L2 hg1ne hL2ne]
    congr 1
    simp


/-- A 10-word, 60-character sentence that is no heading boundary. -/
def sentC4 : Str := ("zebra zebra zebra zebra zebra zebra zebra zebra zebra zebra.").toList

/-- A 600-word heading-free document: 60 copies of `sentC4`. -/
def docC4 : Str := joinSp (List.replicate 60 sentC4)

/-- Filename used by the C4 instances. -/
def fnC4 : Str := ("animals.txt").toList

/-- C4 counterexample: a 600-word document with no heading boundaries for
which `_create_chunks` produces **3** chunks (two topical + one summary), not
the 2 chunks the claim asserts. -/
theorem C4_counterexample :
    (∀ s ∈ splitSentences (stripWS (collapseWS docC4)), isHeading s = false) ∧
    ((splitSentences (stripWS (collapseWS docC4))).map wordCount).sum = 600 ∧
    (createChunks docC4 fnC4 300).length = 3 := by
  decide

/-- Witness for the amended C4 on the concrete 600-word document. -/
theorem C4_amended_three_chunks_witness :
    ∃ g1 g2, splitSentences (stripWS (collapseWS docC4)) = g1 ++ g2 ∧ g1 ≠ [] ∧ g2 ≠ [] ∧
      createChunks docC4 fnC4 300 =
        summaryChunk fnC4 [mkChunk fnC4 g1 ((g1.map wordCount).sum),
          mkChunk fnC4 g2 ((g2.map wordCount).sum)] ::
        [mkChunk fnC4 g1 ((g1.map wordCount).sum), mkChunk fnC4 g2 ((g2.map wordCount).sum)] ∧
      joinSp g1 ++ ' ' :: joinSp g2 = joinSp (splitSentences (stripWS (collapseWS docC4))) :=
  C4_amended_three_chunks docC4 fnC4 (by decide) (by decide)
